import Mathlib

/-
Verification of the drone route planner: a greedy nearest-neighbour tour
builder over 2D waypoints with circular obstacles.  The repository contains
two main variants:

* `M1` — the variant whose `findSafeRoute` subdivides a leg into bounded
  steps along the straight bearing (Policy A) and never consults obstacles;
* `M2` — the variant whose `findSafeRoute` tests the straight leg against
  every obstacle and, on intersection, builds a four-point offset detour
  around the first intersecting obstacle (Policy B).

Coordinates are modelled as real numbers.  The JS `while` loop of the
Policy A subdivision diverges for a non-positive step length, so the
corresponding Lean function is `Option`-valued: `none` models divergence.
Obstacle-throwing code in `M2` is modelled with `Except String`.
-/

open scoped Classical

noncomputable section

namespace DronePath

/-- A 2D waypoint, mirroring the JS `Waypoint` class (an x/y pair). -/
structure Waypoint where
  x : ℝ
  y : ℝ

instance : DecidableEq Waypoint := Classical.decEq _

instance : Inhabited Waypoint := ⟨⟨0, 0⟩⟩

/-- Euclidean distance, mirroring `Waypoint.distanceTo`. -/
def Waypoint.distanceTo (a b : Waypoint) : ℝ :=
  Real.sqrt ((a.x - b.x) ^ 2 + (a.y - b.y) ^ 2)

/-- A circular obstacle: centre plus radius, mirroring the JS `Obstacle` class. -/
structure Obstacle where
  x : ℝ
  y : ℝ
  radius : ℝ

/-- Distance from an obstacle centre to a point, mirroring `Obstacle.distanceTo`. -/
def Obstacle.distanceTo (o : Obstacle) (p : Waypoint) : ℝ :=
  Real.sqrt ((o.x - p.x) ^ 2 + (o.y - p.y) ^ 2)

/-- A straight leg, mirroring the JS `LineSegment` class (the `end` field is
named `endp` because `end` is a Lean keyword). -/
structure LineSegment where
  start : Waypoint
  endp : Waypoint

/-- Distance from the obstacle centre to the closest point of a finite
segment, mirroring `Obstacle.distanceToLineSegment` of `model1.js`:
the projection parameter is computed only when the squared segment length
is nonzero, and is clamped to [0, 1]. -/
def Obstacle.distanceToLineSegment (o : Obstacle) (seg : LineSegment) : ℝ :=
  let dx := seg.endp.x - seg.start.x
  let dy := seg.endp.y - seg.start.y
  let lengthSquared := dx ^ 2 + dy ^ 2
  if lengthSquared = 0 then
    o.distanceTo seg.start
  else
    let t := ((o.x - seg.start.x) * dx + (o.y - seg.start.y) * dy) / lengthSquared
    let tClamped := max 0 (min 1 t)
    let nearestX := seg.start.x + tClamped * dx
    let nearestY := seg.start.y + tClamped * dy
    Real.sqrt ((o.x - nearestX) ^ 2 + (o.y - nearestY) ^ 2)

/-- Segment/disk intersection predicate, mirroring
`Obstacle.intersectsWithLineSegment`: the comparison is `≤` (boundary
contact counts as an intersection). -/
def Obstacle.intersectsWithLineSegment (o : Obstacle) (seg : LineSegment) : Prop :=
  o.distanceToLineSegment seg ≤ o.radius

/-- Two-argument arctangent, mirroring `Math.atan2(y, x)`: the argument of
the complex number `x + y·i` (zero at the origin, as in JS). -/
def atan2 (y x : ℝ) : ℝ := Complex.arg ⟨x, y⟩

/-- Modelled from the spec: the point of a finite segment nearest to `p`,
via the clamped projection parameter `t ∈ [0, 1]`; a degenerate segment
returns its start point.  This is the §4.1 `closestPointOnSegment`
specification, stated separately so that the source's
`distanceToLineSegment` can be compared against it. -/
def closestPointOnSegment (p : Waypoint) (seg : LineSegment) : Waypoint :=
  let dx := seg.endp.x - seg.start.x
  let dy := seg.endp.y - seg.start.y
  let lengthSquared := dx ^ 2 + dy ^ 2
  if lengthSquared = 0 then seg.start
  else
    let t := ((p.x - seg.start.x) * dx + (p.y - seg.start.y) * dy) / lengthSquared
    let tClamped := max 0 (min 1 t)
    ⟨seg.start.x + tClamped * dx, seg.start.y + tClamped * dy⟩

theorem cos_atan2 (y x : ℝ) (h : ¬(x = 0 ∧ y = 0)) :
    Real.cos (atan2 y x) = x / Real.sqrt (x ^ 2 + y ^ 2) := by
  have hz : (⟨x, y⟩ : ℂ) ≠ 0 := by
    intro hzero
    exact h ⟨congrArg Complex.re hzero, congrArg Complex.im hzero⟩
  have := Complex.cos_arg hz
  rwa [Complex.abs_apply, Complex.normSq_mk, show x * x + y * y = x ^ 2 + y ^ 2 by ring]
    at this

theorem sin_atan2 (y x : ℝ) :
    Real.sin (atan2 y x) = y / Real.sqrt (x ^ 2 + y ^ 2) := by
  have := Complex.sin_arg (⟨x, y⟩ : ℂ)
  rwa [Complex.abs_apply, Complex.normSq_mk, show x * x + y * y = x ^ 2 + y ^ 2 by ring]
    at this

namespace M1

/-- One subdivision step of Policy A, mirroring
`RouteOptimizer.findIntermediateWaypoint` of `model1.js`: move `safeDistance`
from `start` along the bearing `atan2` of the delta towards `endW`. -/
def findIntermediateWaypoint (safeDistance : ℝ) (start endW : Waypoint) : Waypoint :=
  let angle := atan2 (endW.y - start.y) (endW.x - start.x)
  ⟨start.x + safeDistance * Real.cos angle, start.y + safeDistance * Real.sin angle⟩

/-- Stepping `s` along the exact bearing towards `n` shortens the remaining
distance by exactly `s` (real arithmetic; this is what makes the source's
`while` loop terminate for a positive step length). -/
theorem distanceTo_findIntermediateWaypoint (s : ℝ) (hs : 0 < s) (c n : Waypoint)
    (h : s < c.distanceTo n) :
    (findIntermediateWaypoint s c n).distanceTo n = c.distanceTo n - s := by
  set dx := n.x - c.x with hdx
  set dy := n.y - c.y with hdy
  have hdist : c.distanceTo n = Real.sqrt (dx ^ 2 + dy ^ 2) := by
    unfold Waypoint.distanceTo
    rw [hdx, hdy]
    ring_nf
  set d := Real.sqrt (dx ^ 2 + dy ^ 2) with hd
  have hdpos : 0 < d := by
    rw [hdist] at h
    exact lt_trans hs h
  have hdsq : d ^ 2 = dx ^ 2 + dy ^ 2 := Real.sq_sqrt (by positivity)
  have hne : ¬(dx = 0 ∧ dy = 0) := by
    rintro ⟨h1, h2⟩
    rw [h1, h2] at hd
    simp at hd
    rw [hd] at hdpos
    exact lt_irrefl 0 hdpos
  have hcos : Real.cos (atan2 dy dx) = dx / d := by
    rw [cos_atan2 dy dx hne, hd]
  have hsin : Real.sin (atan2 dy dx) = dy / d := by
    rw [sin_atan2 dy dx, hd]
  unfold findIntermediateWaypoint Waypoint.distanceTo
  dsimp only
  rw [← hdx, ← hdy, hcos, hsin]
  have hxterm : c.x + s * (dx / d) - n.x = -((1 - s / d) * dx) := by
    field_simp
    ring
  have hyterm : c.y + s * (dy / d) - n.y = -((1 - s / d) * dy) := by
    field_simp
    ring
  rw [hxterm, hyterm]
  have hsum : (-((1 - s / d) * dx)) ^ 2 + (-((1 - s / d) * dy)) ^ 2
      = (1 - s / d) ^ 2 * (dx ^ 2 + dy ^ 2) := by ring
  rw [hsum, Real.sqrt_mul (sq_nonneg _), Real.sqrt_sq_eq_abs, ← hd]
  have hfrac : s / d < 1 := (div_lt_one hdpos).mpr (by rw [hdist] at h; exact h)
  rw [abs_of_nonneg (by linarith)]
  have hflip : (c.x - n.x) ^ 2 + (c.y - n.y) ^ 2 = dx ^ 2 + dy ^ 2 := by
    rw [hdx, hdy]; ring
  rw [hflip, ← hd]
  field_simp

/-- The `while` loop of `findSafeRoute` in `model1.js`, as a recursive
function.  The loop inserts intermediate waypoints while the remaining
distance exceeds the step length; the hypothesis `0 < s` is exactly what
makes it terminate (the remaining distance drops by `s` per iteration). -/
def safeLoop (s : ℝ) (hs : 0 < s) (current next : Waypoint) : List Waypoint :=
  if h : current.distanceTo next > s then
    findIntermediateWaypoint s current next ::
      safeLoop s hs (findIntermediateWaypoint s current next) next
  else
    [next]
termination_by (⌈current.distanceTo next / s⌉).toNat
decreasing_by
  rw [distanceTo_findIntermediateWaypoint s hs current next h]
  have hdiv : (current.distanceTo next - s) / s = current.distanceTo next / s - 1 := by
    field_simp
  rw [hdiv, Int.ceil_sub_one]
  have hgt : (1 : ℝ) < current.distanceTo next / s := (one_lt_div hs).mpr h
  have hceil : (1 : ℤ) < ⌈current.distanceTo next / s⌉ := by
    exact_mod_cast Int.lt_ceil.mpr (by exact_mod_cast hgt)
  omega

/-- `RouteOptimizer.findSafeRoute` of `model1.js` (Policy A): the start
point followed by the subdivision loop's output.  For a non-positive step
length the JS loop diverges whenever the leg is longer than the step;
`none` models that divergence. -/
def findSafeRoute (s : ℝ) (seg : LineSegment) : Option (List Waypoint) :=
  if hs : 0 < s then
    some (seg.start :: safeLoop s hs seg.start seg.endp)
  else if seg.start.distanceTo seg.endp > s then
    none
  else
    some [seg.start, seg.endp]

/-- `RouteOptimizer.isSafeRoute` of `model1.js`: a leg is safe when it
intersects no obstacle.  (This method is defined by the source but never
called by `optimizeRoute`.) -/
def isSafeRoute (obstacles : List Obstacle) (seg : LineSegment) : Prop :=
  ∀ o ∈ obstacles, ¬ o.intersectsWithLineSegment seg

end M1

/-- The body of the `reduce` callback used by every `optimizeRoute` variant:
keep the accumulator unless the candidate is *strictly* closer (so the
first of equally-near candidates wins). -/
def selectStep (current minWaypoint waypoint : Waypoint) : Waypoint :=
  if waypoint.distanceTo current < minWaypoint.distanceTo current then waypoint
  else minWaypoint

/-- The nearest-unvisited scan shared by every `optimizeRoute` variant,
mirroring `unvisitedWaypoints.reduce((minWaypoint, waypoint) => ..,
unvisitedWaypoints[0])`: a left fold over the whole list starting from its
first element. -/
def selectClosest (current : Waypoint) (unvisited : List Waypoint) : Waypoint :=
  unvisited.foldl (selectStep current) (unvisited.headD ⟨0, 0⟩)

theorem foldl_select_mem (current : Waypoint) :
    ∀ (l : List Waypoint) (acc : Waypoint),
      l.foldl (selectStep current) acc = acc ∨ l.foldl (selectStep current) acc ∈ l := by
  intro l
  induction l with
  | nil => intro acc; left; rfl
  | cons hd tl ih =>
    intro acc
    simp only [List.foldl_cons]
    by_cases hlt : hd.distanceTo current < acc.distanceTo current
    · rw [show selectStep current acc hd = hd from if_pos hlt]
      rcases ih hd with h | h
      · right; rw [h]; exact List.mem_cons_self _ _
      · right; exact List.mem_cons_of_mem _ h
    · rw [show selectStep current acc hd = acc from if_neg hlt]
      rcases ih acc with h | h
      · left; exact h
      · right; exact List.mem_cons_of_mem _ h

theorem selectClosest_mem (current hd : Waypoint) (tl : List Waypoint) :
    selectClosest current (hd :: tl) ∈ hd :: tl := by
  unfold selectClosest
  rcases foldl_select_mem current (hd :: tl) ((hd :: tl).headD ⟨0, 0⟩) with h | h
  · rw [h]; exact List.mem_cons_self _ _
  · exact h


namespace M1

/-- The `while (unvisitedWaypoints.length > 0)` loop of `optimizeRoute` in
`model1.js`: select the nearest unvisited waypoint from the route's last
point, resolve the leg through `findSafeRoute`, append everything after the
leg's first point, and remove the selected waypoint
(`splice(indexOf(..), 1)` removes the first occurrence, i.e. `List.erase`). -/
def optimizeLoop (s : ℝ) : List Waypoint → List Waypoint → Option (List Waypoint)
  | route, [] => some route
  | route, hd :: tl =>
    let currentWaypoint := (route.getLast?).getD ⟨0, 0⟩
    let closestWaypoint := selectClosest currentWaypoint (hd :: tl)
    match findSafeRoute s ⟨currentWaypoint, closestWaypoint⟩ with
    | none => none
    | some safeRoute =>
      optimizeLoop s (route ++ safeRoute.tail) ((hd :: tl).erase closestWaypoint)
termination_by _ u => u.length
decreasing_by
  have hmem := selectClosest_mem ((route.getLast?).getD ⟨0, 0⟩) hd tl
  rw [List.length_erase_of_mem hmem]
  simp

/-- `RouteOptimizer.optimizeRoute` of `model1.js` on a non-empty waypoint
sequence `w :: rest`: run the greedy loop starting from the route `[w]`,
then (when the route has more than one point) resolve the closing leg back
to the route's first point and append it. -/
def optimizeRoute (s : ℝ) (w : Waypoint) (rest : List Waypoint) : Option (List Waypoint) :=
  match optimizeLoop s [w] rest with
  | none => none
  | some route =>
    if 1 < route.length then
      match findSafeRoute s ⟨(route.getLast?).getD ⟨0, 0⟩, route.headD ⟨0, 0⟩⟩ with
      | none => none
      | some safeRoute => some (route ++ safeRoute.tail)
    else some route

end M1

namespace M2

/-- The record `{ x1, y1, x2, y2 }` used as a line segment by `model2.js`. -/
structure LineSegment where
  x1 : ℝ
  y1 : ℝ
  x2 : ℝ
  y2 : ℝ

/-- Segment construction as in `model2.js`'s `findSafeRoute`:
`{ x1: start.x, y1: start.y, x2: end.x, y2: end.y }`. -/
def mkSegment (startWaypoint endWaypoint : Waypoint) : LineSegment :=
  ⟨startWaypoint.x, startWaypoint.y, endWaypoint.x, endWaypoint.y⟩

/-- `Obstacle.distanceToLineSegment` of `model2.js`: the degenerate test is
on the segment *length* (a square root) rather than the squared length, and
the projection divides by `length ^ 2`. -/
def distanceToLineSegment (o : Obstacle) (seg : LineSegment) : ℝ :=
  let lineSegmentLength := Real.sqrt ((seg.x2 - seg.x1) ^ 2 + (seg.y2 - seg.y1) ^ 2)
  if lineSegmentLength = 0 then
    Real.sqrt ((o.x - seg.x1) ^ 2 + (o.y - seg.y1) ^ 2)
  else
    let t := ((o.x - seg.x1) * (seg.x2 - seg.x1) + (o.y - seg.y1) * (seg.y2 - seg.y1)) /
      lineSegmentLength ^ 2
    let tClamped := max 0 (min 1 t)
    let nearestX := seg.x1 + tClamped * (seg.x2 - seg.x1)
    let nearestY := seg.y1 + tClamped * (seg.y2 - seg.y1)
    Real.sqrt ((o.x - nearestX) ^ 2 + (o.y - nearestY) ^ 2)

/-- `Obstacle.intersectsWithLineSegment` of `model2.js` (`≤`, boundary
contact intersects). -/
def intersectsWithLineSegment (o : Obstacle) (seg : LineSegment) : Prop :=
  distanceToLineSegment o seg ≤ o.radius

/-- The `obstacles.find(..)` scan of `findAlternativeSafePath`: the first
obstacle (in input order) intersecting the straight leg. -/
def findIntersecting (startWaypoint endWaypoint : Waypoint) :
    List Obstacle → Option Obstacle
  | [] => none
  | o :: rest =>
    if intersectsWithLineSegment o (mkSegment startWaypoint endWaypoint) then some o
    else findIntersecting startWaypoint endWaypoint rest

/-- `RouteOptimizer.findAlternativeSafePath` of `model2.js` (Policy B): find
the first intersecting obstacle (throwing "No obstacle found" when the scan
fails), then build the four-point detour with offset radius
`obstacle.radius + 1` at `θ ± 45°`. -/
def findAlternativeSafePath (obstacles : List Obstacle)
    (startWaypoint endWaypoint : Waypoint) : Except String (List Waypoint) :=
  match findIntersecting startWaypoint endWaypoint obstacles with
  | none => Except.error "No obstacle found"
  | some obstacle =>
    let angle := atan2 (endWaypoint.y - startWaypoint.y) (endWaypoint.x - startWaypoint.x)
    let radius := obstacle.radius + 1
    let intermediateWaypoint1 : Waypoint :=
      ⟨startWaypoint.x + radius * Real.cos (angle + Real.pi / 4),
       startWaypoint.y + radius * Real.sin (angle + Real.pi / 4)⟩
    let intermediateWaypoint2 : Waypoint :=
      ⟨endWaypoint.x - radius * Real.cos (angle - Real.pi / 4),
       endWaypoint.y - radius * Real.sin (angle - Real.pi / 4)⟩
    Except.ok [startWaypoint, intermediateWaypoint1, intermediateWaypoint2, endWaypoint]

/-- `RouteOptimizer.findSafeRoute` of `model2.js`: if some obstacle
intersects the straight leg, delegate to `findAlternativeSafePath`;
otherwise the leg is safe as-is. -/
def findSafeRoute (obstacles : List Obstacle)
    (startWaypoint endWaypoint : Waypoint) : Except String (List Waypoint) :=
  if ∃ o ∈ obstacles, intersectsWithLineSegment o (mkSegment startWaypoint endWaypoint) then
    findAlternativeSafePath obstacles startWaypoint endWaypoint
  else
    Except.ok [startWaypoint, endWaypoint]

/-- The main loop of `optimizeRoute` in `model2.js` (same structure as the
`model1.js` loop, but the resolver is Policy B and errors propagate). -/
def optimizeLoop (obstacles : List Obstacle) :
    List Waypoint → List Waypoint → Except String (List Waypoint)
  | route, [] => Except.ok route
  | route, hd :: tl =>
    let currentWaypoint := (route.getLast?).getD ⟨0, 0⟩
    let closestWaypoint := selectClosest currentWaypoint (hd :: tl)
    match findSafeRoute obstacles currentWaypoint closestWaypoint with
    | Except.error e => Except.error e
    | Except.ok safeRoute =>
      optimizeLoop obstacles (route ++ safeRoute.tail) ((hd :: tl).erase closestWaypoint)
termination_by _ u => u.length
decreasing_by
  have hmem := selectClosest_mem ((route.getLast?).getD ⟨0, 0⟩) hd tl
  rw [List.length_erase_of_mem hmem]
  simp

/-- `RouteOptimizer.optimizeRoute` of `model2.js` on a non-empty waypoint
sequence `w :: rest`. -/
def optimizeRoute (obstacles : List Obstacle) (w : Waypoint) (rest : List Waypoint) :
    Except String (List Waypoint) :=
  match optimizeLoop obstacles [w] rest with
  | Except.error e => Except.error e
  | Except.ok route =>
    if 1 < route.length then
      match findSafeRoute obstacles ((route.getLast?).getD ⟨0, 0⟩) (route.headD ⟨0, 0⟩) with
      | Except.error e => Except.error e
      | Except.ok safeRoute => Except.ok (route ++ safeRoute.tail)
    else Except.ok route

end M2

/-- Spec-side mirror of the sequence of waypoints selected by the greedy
loop: at each step the nearest unvisited waypoint to the previously
selected one is taken and removed (the loop's `current` is always the
previously selected waypoint because every resolved leg ends at its
target). -/
def selectionOrder : Waypoint → List Waypoint → List Waypoint
  | _, [] => []
  | current, hd :: tl =>
    selectClosest current (hd :: tl) ::
      selectionOrder (selectClosest current (hd :: tl))
        ((hd :: tl).erase (selectClosest current (hd :: tl)))
termination_by _ u => u.length
decreasing_by
  have hmem := selectClosest_mem current hd tl
  rw [List.length_erase_of_mem hmem]
  simp

/-- Spec-side vocabulary: the concatenation of the resolver outputs (leg
first points dropped) along a given selection sequence, used to state what
the `model1.js` loop appends to the route. -/
def legsFrom (s : ℝ) (hs : 0 < s) : Waypoint → List Waypoint → List Waypoint
  | _, [] => []
  | c, sel :: rest => M1.safeLoop s hs c sel ++ legsFrom s hs sel rest

/-- `DroneRouteOptimizer.isObstructed` from the unnamed grid-search variant:
a *point* is obstructed when it is strictly within distance 10 of some
obstacle centre (this variant has no segment predicate at all). -/
def isObstructed (obstacles : List Waypoint) (point : Waypoint) : Prop :=
  ∃ o ∈ obstacles, point.distanceTo o < 10

theorem sqrt_eq_of_sq {x y : ℝ} (hy : 0 ≤ y) (h : x = y ^ 2) : Real.sqrt x = y := by
  rw [h, Real.sqrt_sq hy]

/-- Invariant of the left-fold minimum scan: either the accumulator
survives (it is no farther than every scanned element), or the result is a
scanned element that is strictly closer than the accumulator, no farther
than every scanned element, and *strictly* closer than every element
scanned before it (first encountered wins). -/
theorem foldl_select_spec (current : Waypoint) :
    ∀ (l : List Waypoint) (acc : Waypoint),
      (l.foldl (selectStep current) acc = acc ∧
        ∀ w ∈ l, acc.distanceTo current ≤ w.distanceTo current) ∨
      (∃ i : ℕ, ∃ hi : i < l.length,
        l.foldl (selectStep current) acc = l.get ⟨i, hi⟩ ∧
        (l.get ⟨i, hi⟩).distanceTo current < acc.distanceTo current ∧
        (∀ w ∈ l, (l.get ⟨i, hi⟩).distanceTo current ≤ w.distanceTo current) ∧
        (∀ j, ∀ hj : j < l.length, j < i →
          (l.get ⟨i, hi⟩).distanceTo current < (l.get ⟨j, hj⟩).distanceTo current)) := by
  intro l
  induction l with
  | nil =>
    intro acc
    left
    exact ⟨rfl, by simp⟩
  | cons hd tl ih =>
    intro acc
    simp only [List.foldl_cons]
    by_cases hlt : hd.distanceTo current < acc.distanceTo current
    · rw [show selectStep current acc hd = hd from if_pos hlt]
      rcases ih hd with ⟨heq, hmin⟩ | ⟨i, hi, heq, hlt2, hmin, hstrict⟩
      · right
        refine ⟨0, by simp, heq, hlt, ?_, ?_⟩
        · intro w hw
          rcases List.mem_cons.mp hw with rfl | hw
          · exact le_refl _
          · exact hmin w hw
        · intro j hj hj0
          omega
      · right
        refine ⟨i + 1, by simpa using hi, heq, lt_trans hlt2 hlt, ?_, ?_⟩
        · intro w hw
          rcases List.mem_cons.mp hw with rfl | hw
          · exact le_of_lt hlt2
          · exact hmin w hw
        · intro j hj hji
          cases j with
          | zero => exact hlt2
          | succ j' => exact hstrict j' (by simpa using hj) (by omega)
    · rw [show selectStep current acc hd = acc from if_neg hlt]
      have hle : acc.distanceTo current ≤ hd.distanceTo current := not_lt.mp hlt
      rcases ih acc with ⟨heq, hmin⟩ | ⟨i, hi, heq, hlt2, hmin, hstrict⟩
      · left
        refine ⟨heq, ?_⟩
        intro w hw
        rcases List.mem_cons.mp hw with rfl | hw
        · exact hle
        · exact hmin w hw
      · right
        refine ⟨i + 1, by simpa using hi, heq, hlt2, ?_, ?_⟩
        · intro w hw
          rcases List.mem_cons.mp hw with rfl | hw
          · exact le_of_lt (lt_of_lt_of_le hlt2 hle)
          · exact hmin w hw
        · intro j hj hji
          cases j with
          | zero => exact lt_of_lt_of_le hlt2 hle
          | succ j' => exact hstrict j' (by simpa using hj) (by omega)

/-- C3: on a non-empty unvisited list, the scan selects an element of
minimum distance to the current waypoint, and every element appearing
before the selected index is strictly farther (ties broken by input order,
first encountered wins). -/
theorem c3_nearest_selection (current : Waypoint) (l : List Waypoint) (h : l ≠ []) :
    ∃ i : ℕ, ∃ hi : i < l.length,
      l.get ⟨i, hi⟩ = selectClosest current l ∧
      (∀ w ∈ l, (selectClosest current l).distanceTo current ≤ w.distanceTo current) ∧
      ∀ j, ∀ hj : j < l.length, j < i →
        (selectClosest current l).distanceTo current <
          (l.get ⟨j, hj⟩).distanceTo current := by
  cases l with
  | nil => exact absurd rfl h
  | cons hd tl =>
    unfold selectClosest
    rw [show (hd :: tl).headD ⟨0, 0⟩ = hd from rfl]
    rcases foldl_select_spec current (hd :: tl) hd with ⟨heq, hmin⟩ | ⟨i, hi, heq, _, hmin, hstrict⟩
    · refine ⟨0, by simp, heq.symm, ?_, ?_⟩
      · intro w hw
        rw [heq]
        exact hmin w hw
      · intro j hj hj0
        omega
    · refine ⟨i, hi, heq.symm, ?_, ?_⟩
      · intro w hw
        rw [heq]
        exact hmin w hw
      · intro j hj hji
        rw [heq]
        exact hstrict j hj hji

/-- Witness for C3: from `(0,0)` with unvisited `[(2,0), (1,0)]` the scan
selects `(1,0)` (strictly closer than the head). -/
theorem c3_nearest_selection_witness :
    selectClosest ⟨0, 0⟩ [⟨2, 0⟩, ⟨1, 0⟩] = (⟨1, 0⟩ : Waypoint) ∧
    ([⟨2, 0⟩, ⟨1, 0⟩] : List Waypoint) ≠ [] ∧
    (∃ i : ℕ, ∃ hi : i < ([⟨2, 0⟩, ⟨1, 0⟩] : List Waypoint).length,
      ([⟨2, 0⟩, ⟨1, 0⟩] : List Waypoint).get ⟨i, hi⟩ =
        selectClosest ⟨0, 0⟩ [⟨2, 0⟩, ⟨1, 0⟩] ∧
      (∀ w ∈ ([⟨2, 0⟩, ⟨1, 0⟩] : List Waypoint),
        (selectClosest ⟨0, 0⟩ [⟨2, 0⟩, ⟨1, 0⟩]).distanceTo ⟨0, 0⟩ ≤
          w.distanceTo ⟨0, 0⟩) ∧
      ∀ j, ∀ hj : j < ([⟨2, 0⟩, ⟨1, 0⟩] : List Waypoint).length, j < i →
        (selectClosest ⟨0, 0⟩ [⟨2, 0⟩, ⟨1, 0⟩]).distanceTo ⟨0, 0⟩ <
          (([⟨2, 0⟩, ⟨1, 0⟩] : List Waypoint).get ⟨j, hj⟩).distanceTo ⟨0, 0⟩) := by
  have h1 : (⟨1, 0⟩ : Waypoint).distanceTo ⟨0, 0⟩ = 1 := by
    unfold Waypoint.distanceTo
    exact sqrt_eq_of_sq (by norm_num) (by norm_num)
  have h2 : (⟨2, 0⟩ : Waypoint).distanceTo ⟨0, 0⟩ = 2 := by
    unfold Waypoint.distanceTo
    exact sqrt_eq_of_sq (by norm_num) (by norm_num)
  have heval : selectClosest ⟨0, 0⟩ [⟨2, 0⟩, ⟨1, 0⟩] = (⟨1, 0⟩ : Waypoint) := by
    unfold selectClosest selectStep
    simp only [List.headD_cons, List.foldl_cons, List.foldl_nil]
    rw [if_neg (lt_irrefl _), h1, h2, if_pos (by norm_num)]
  exact ⟨heval, by simp, c3_nearest_selection ⟨0, 0⟩ _ (by simp)⟩

theorem M2.distanceToLineSegment_nonneg (o : Obstacle) (seg : M2.LineSegment) :
    0 ≤ M2.distanceToLineSegment o seg := by
  unfold M2.distanceToLineSegment
  dsimp only
  split <;> exact Real.sqrt_nonneg _

/-- The source's point-to-segment distance computation agrees with the
distance to the spec's `closestPointOnSegment`, in both the degenerate and
the clamped-projection branch. -/
theorem distanceToLineSegment_eq_closest (o : Obstacle) (seg : LineSegment) :
    o.distanceToLineSegment seg =
      (closestPointOnSegment ⟨o.x, o.y⟩ seg).distanceTo ⟨o.x, o.y⟩ := by
  unfold Obstacle.distanceToLineSegment closestPointOnSegment Obstacle.distanceTo
    Waypoint.distanceTo
  dsimp only
  split
  · congr 1
    ring
  · congr 1
    ring

/-- C7: on a degenerate (zero-length) segment both variants' distance
computations return the plain distance to the segment's start point, and
the spec's `closestPointOnSegment` returns the start point itself; the
clamped-projection branch (the only place a division occurs) is never
taken. -/
theorem c7_degenerate_segment (o : Obstacle) (a p : Waypoint) :
    o.distanceToLineSegment ⟨a, a⟩ = o.distanceTo a ∧
    M2.distanceToLineSegment o (M2.mkSegment a a) = o.distanceTo a ∧
    closestPointOnSegment p ⟨a, a⟩ = a := by
  refine ⟨?_, ?_, ?_⟩
  · unfold Obstacle.distanceToLineSegment
    dsimp only
    rw [if_pos (by ring)]
  · unfold M2.distanceToLineSegment M2.mkSegment Obstacle.distanceTo
    dsimp only
    rw [if_pos (by simp [sub_self])]
  · unfold closestPointOnSegment
    dsimp only
    rw [if_pos (by ring)]

/-- C6: the segment/disk intersection predicate holds exactly when the
distance from the obstacle centre to the closest point of the segment is
at most the radius; in particular, exact boundary contact (distance equal
to the radius) is classified as intersecting. -/
theorem c6_intersection_boundary (o : Obstacle) (seg : LineSegment) :
    (o.intersectsWithLineSegment seg ↔
      (closestPointOnSegment ⟨o.x, o.y⟩ seg).distanceTo ⟨o.x, o.y⟩ ≤ o.radius) ∧
    ((closestPointOnSegment ⟨o.x, o.y⟩ seg).distanceTo ⟨o.x, o.y⟩ = o.radius →
      o.intersectsWithLineSegment seg) := by
  constructor
  · unfold Obstacle.intersectsWithLineSegment
    rw [distanceToLineSegment_eq_closest]
  · intro h
    unfold Obstacle.intersectsWithLineSegment
    rw [distanceToLineSegment_eq_closest, h]

theorem findIntersecting_of_exists (a b : Waypoint) :
    ∀ obs : List Obstacle,
      (∃ o ∈ obs, M2.intersectsWithLineSegment o (M2.mkSegment a b)) →
      ∃ o', M2.findIntersecting a b obs = some o' := by
  intro obs
  induction obs with
  | nil => rintro ⟨o, hmem, _⟩; simp at hmem
  | cons hd tl ih =>
    rintro ⟨o, hmem, hint⟩
    rw [M2.findIntersecting]
    by_cases hhd : M2.intersectsWithLineSegment hd (M2.mkSegment a b)
    · rw [if_pos hhd]
      exact ⟨hd, rfl⟩
    · rw [if_neg hhd]
      apply ih
      rcases List.mem_cons.mp hmem with rfl | hmem
      · exact absurd hint hhd
      · exact ⟨o, hmem, hint⟩

/-- The `obstacles.find(..)` scan returns the first intersecting obstacle
in input order. -/
theorem findIntersecting_first (a b : Waypoint) :
    ∀ (pre : List Obstacle) (o : Obstacle) (suf : List Obstacle),
      (∀ o' ∈ pre, ¬ M2.intersectsWithLineSegment o' (M2.mkSegment a b)) →
      M2.intersectsWithLineSegment o (M2.mkSegment a b) →
      M2.findIntersecting a b (pre ++ o :: suf) = some o := by
  intro pre
  induction pre with
  | nil =>
    intro o suf _ hint
    rw [List.nil_append, M2.findIntersecting, if_pos hint]
  | cons hd tl ih =>
    intro o suf hpre hint
    rw [List.cons_append, M2.findIntersecting,
      if_neg (hpre hd (List.mem_cons_self _ _))]
    exact ih o suf (fun o' ho' => hpre o' (List.mem_cons_of_mem _ ho')) hint

/-- `M2.findSafeRoute` always succeeds, and its output starts at the leg's
start, ends at the leg's end, and has at least two points. -/
theorem M2.findSafeRoute_ok (obs : List Obstacle) (a b : Waypoint) :
    ∃ l, M2.findSafeRoute obs a b = Except.ok l ∧
      l.head? = some a ∧ l.getLast? = some b ∧ 2 ≤ l.length := by
  unfold M2.findSafeRoute
  by_cases hex : ∃ o ∈ obs, M2.intersectsWithLineSegment o (M2.mkSegment a b)
  · rw [if_pos hex]
    unfold M2.findAlternativeSafePath
    obtain ⟨o', ho'⟩ := findIntersecting_of_exists a b obs hex
    rw [ho']
    exact ⟨_, rfl, rfl, by simp, by simp⟩
  · rw [if_neg hex]
    exact ⟨[a, b], rfl, rfl, by simp, by simp⟩

/-- The `model2.js` main loop never fails, only ever appends to the route
it is given, and appends at least one point per unvisited waypoint. -/
theorem M2.optimizeLoop_ok (obs : List Obstacle) :
    ∀ (u route : List Waypoint),
      ∃ l, M2.optimizeLoop obs route u = Except.ok l ∧ (∃ ext, l = route ++ ext) ∧
        route.length + u.length ≤ l.length := by
  suffices H : ∀ (n : ℕ) (u route : List Waypoint), u.length = n →
      ∃ l, M2.optimizeLoop obs route u = Except.ok l ∧ (∃ ext, l = route ++ ext) ∧
        route.length + u.length ≤ l.length by
    exact fun u route => H u.length u route rfl
  intro n
  induction n using Nat.strong_induction_on with
  | _ n ih =>
    intro u route hlen
    cases u with
    | nil =>
      refine ⟨route, ?_, ⟨[], by simp⟩, by simp⟩
      rw [M2.optimizeLoop]
    | cons hd tl =>
      rw [M2.optimizeLoop]
      obtain ⟨sr, hsr, _, hlast, hsrlen⟩ :=
        M2.findSafeRoute_ok obs (((route.getLast?).getD ⟨0, 0⟩))
          (selectClosest ((route.getLast?).getD ⟨0, 0⟩) (hd :: tl))
      rw [hsr]
      have hmem := selectClosest_mem ((route.getLast?).getD ⟨0, 0⟩) hd tl
      have herase : ((hd :: tl).erase
          (selectClosest ((route.getLast?).getD ⟨0, 0⟩) (hd :: tl))).length =
          (hd :: tl).length - 1 := List.length_erase_of_mem hmem
      obtain ⟨l, hl, ⟨ext, hext⟩, hlen'⟩ :=
        ih (((hd :: tl).erase
          (selectClosest ((route.getLast?).getD ⟨0, 0⟩) (hd :: tl))).length)
          (by rw [herase, ← hlen]; simp only [List.length_cons]; omega)
          ((hd :: tl).erase (selectClosest ((route.getLast?).getD ⟨0, 0⟩) (hd :: tl)))
          (route ++ sr.tail) rfl
      refine ⟨l, hl, ⟨sr.tail ++ ext, by rw [hext, List.append_assoc]⟩, ?_⟩
      have htail : 1 ≤ sr.tail.length := by
        obtain ⟨x, xs, rfl⟩ : ∃ x xs, sr = x :: xs := by
          cases sr with
          | nil => simp at hsrlen
          | cons x xs => exact ⟨x, xs, rfl⟩
        simp only [List.tail_cons]
        simp only [List.length_cons] at hsrlen
        omega
      have hlen2 : (hd :: tl).length = tl.length + 1 := by simp
      rw [List.length_append] at hlen'
      omega

/-- A leg that intersects no obstacle is returned unchanged by the Policy B
resolver. -/
theorem findSafeRoute_of_no_intersect (obs : List Obstacle) (a b : Waypoint)
    (h : ∀ o ∈ obs, ¬ M2.intersectsWithLineSegment o (M2.mkSegment a b)) :
    M2.findSafeRoute obs a b = Except.ok [a, b] := by
  unfold M2.findSafeRoute
  rw [if_neg]
  rintro ⟨o, hmem, hint⟩
  exact h o hmem hint

/-- An obstacle whose radius field is negative can never intersect any
segment: the computed distance is a square root, hence non-negative. -/
theorem not_intersects_of_neg_radius (o : Obstacle) (seg : M2.LineSegment)
    (h : o.radius < 0) : ¬ M2.intersectsWithLineSegment o seg := by
  unfold M2.intersectsWithLineSegment
  intro hle
  exact absurd (le_trans (M2.distanceToLineSegment_nonneg o seg) hle) (not_le.mpr h)

/-- Helper for C10 (model2 part): for at least two input waypoints, the
tour builder always appends a resolved closing leg back to the first input
waypoint. -/
theorem M2.closes_loop (obs : List Obstacle) (w : Waypoint) (rest : List Waypoint)
    (h : rest ≠ []) :
    ∃ l, M2.optimizeRoute obs w rest = Except.ok l ∧
      l.getLast? = some w ∧ 2 ≤ l.length := by
  obtain ⟨m, hm, ⟨ext, hext⟩, hmlen⟩ := M2.optimizeLoop_ok obs rest [w]
  unfold M2.optimizeRoute
  rw [hm]
  dsimp only
  have hrest1 : 1 ≤ rest.length := by
    cases rest with
    | nil => exact absurd rfl h
    | cons x xs => simp
  have hmgt : 1 < m.length := by
    simp only [List.length_singleton] at hmlen
    omega
  rw [if_pos hmgt]
  have hhead : m.headD ⟨0, 0⟩ = w := by
    rw [hext]
    rfl
  obtain ⟨sr, hsr, _, hsrlast, hsrlen⟩ :=
    M2.findSafeRoute_ok obs ((m.getLast?).getD ⟨0, 0⟩) (m.headD ⟨0, 0⟩)
  rw [hhead] at hsr hsrlast
  rw [hhead, hsr]
  obtain ⟨x, xs, rfl⟩ : ∃ x xs, sr = x :: xs := by
    cases sr with
    | nil => simp at hsrlen
    | cons x xs => exact ⟨x, xs, rfl⟩
  have hxs : xs ≠ [] := by
    simp only [List.length_cons] at hsrlen
    intro hnil
    rw [hnil] at hsrlen
    simp at hsrlen
  have hxslast : xs.getLast? = some w := by
    rw [show x :: xs = [x] ++ xs from rfl,
      List.getLast?_append_of_ne_nil _ hxs] at hsrlast
    exact hsrlast
  refine ⟨m ++ (x :: xs).tail, rfl, ?_, ?_⟩
  · rw [List.tail_cons, List.getLast?_append_of_ne_nil _ hxs]
    exact hxslast
  · rw [List.length_append]
    omega

/-- When every obstacle has a negative radius, the `model2.js` main loop
behaves exactly as with no obstacles at all. -/
theorem M2.optimizeLoop_neg_radius (obs : List Obstacle)
    (h : ∀ o ∈ obs, o.radius < 0) :
    ∀ (u route : List Waypoint),
      M2.optimizeLoop obs route u = M2.optimizeLoop [] route u := by
  have hsafe : ∀ a b : Waypoint,
      M2.findSafeRoute obs a b = Except.ok [a, b] := fun a b =>
    findSafeRoute_of_no_intersect obs a b
      (fun o ho _ => not_intersects_of_neg_radius o _ (h o ho) ‹_›)
  have hsafe0 : ∀ a b : Waypoint,
      M2.findSafeRoute [] a b = Except.ok [a, b] := fun a b =>
    findSafeRoute_of_no_intersect [] a b (by simp)
  suffices H : ∀ (n : ℕ) (u route : List Waypoint), u.length = n →
      M2.optimizeLoop obs route u = M2.optimizeLoop [] route u by
    exact fun u route => H u.length u route rfl
  intro n
  induction n using Nat.strong_induction_on with
  | _ n ih =>
    intro u route hlen
    cases u with
    | nil =>
      conv_lhs => rw [M2.optimizeLoop]
      conv_rhs => rw [M2.optimizeLoop]
    | cons hd tl =>
      conv_lhs => rw [M2.optimizeLoop]
      conv_rhs => rw [M2.optimizeLoop]
      rw [hsafe, hsafe0]
      dsimp only
      have hmem := selectClosest_mem ((route.getLast?).getD ⟨0, 0⟩) hd tl
      exact ih (((hd :: tl).erase
          (selectClosest ((route.getLast?).getD ⟨0, 0⟩) (hd :: tl))).length)
        (by rw [List.length_erase_of_mem hmem, ← hlen]
            simp only [List.length_cons]
            omega)
        _ _ rfl

/-- C9 (amended): with every obstacle radius negative, `optimizeRoute`
does not fail; the invalid obstacles are silently inert and the result is
exactly what an empty obstacle set produces. -/
theorem c9_invalid_input_ignored (obs : List Obstacle) (w : Waypoint)
    (rest : List Waypoint) (h : ∀ o ∈ obs, o.radius < 0) :
    M2.optimizeRoute obs w rest = M2.optimizeRoute [] w rest := by
  have hsafe : ∀ a b : Waypoint,
      M2.findSafeRoute obs a b = Except.ok [a, b] := fun a b =>
    findSafeRoute_of_no_intersect obs a b
      (fun o ho _ => not_intersects_of_neg_radius o _ (h o ho) ‹_›)
  have hsafe0 : ∀ a b : Waypoint,
      M2.findSafeRoute [] a b = Except.ok [a, b] := fun a b =>
    findSafeRoute_of_no_intersect [] a b (by simp)
  unfold M2.optimizeRoute
  rw [M2.optimizeLoop_neg_radius obs h rest [w]]
  obtain ⟨m, hm, _, _⟩ := M2.optimizeLoop_ok [] rest [w]
  rw [hm]
  dsimp only
  by_cases hgt : 1 < m.length
  · rw [if_pos hgt, if_pos hgt, hsafe, hsafe0]
  · rw [if_neg hgt, if_neg hgt]

/-- Witness for the amended C9 at a concrete invalid input (an obstacle
with radius `-1`). -/
theorem c9_invalid_input_ignored_witness :
    (∀ o ∈ ([⟨1, 0, -1⟩] : List Obstacle), o.radius < 0) ∧
    M2.optimizeRoute [⟨1, 0, -1⟩] ⟨0, 0⟩ [⟨3, 0⟩] =
      M2.optimizeRoute [] ⟨0, 0⟩ [⟨3, 0⟩] := by
  have hneg : ∀ o ∈ ([⟨1, 0, -1⟩] : List Obstacle), o.radius < 0 := by
    intro o ho
    rcases List.mem_cons.mp ho with rfl | ho
    · norm_num
    · simp at ho
  exact ⟨hneg, c9_invalid_input_ignored [⟨1, 0, -1⟩] ⟨0, 0⟩ [⟨3, 0⟩] hneg⟩

/-- C9 (counterexample): on an input the spec classifies as invalid (an
obstacle with negative radius), `optimizeRoute` does not fail fast with an
error — it returns a complete Route. -/
theorem c9_counterexample :
    M2.optimizeRoute [⟨1, 0, -1⟩] ⟨0, 0⟩ [⟨3, 0⟩] =
      Except.ok [⟨0, 0⟩, ⟨3, 0⟩, ⟨0, 0⟩] := by
  have hneg : ∀ o ∈ ([⟨1, 0, -1⟩] : List Obstacle), o.radius < 0 := by
    intro o ho
    rcases List.mem_cons.mp ho with rfl | ho
    · norm_num
    · simp at ho
  rw [c9_invalid_input_ignored [⟨1, 0, -1⟩] ⟨0, 0⟩ [⟨3, 0⟩] hneg]
  have hsel : selectClosest ⟨0, 0⟩ [⟨3, 0⟩] = (⟨3, 0⟩ : Waypoint) := by
    unfold selectClosest selectStep
    simp only [List.headD_cons, List.foldl_cons, List.foldl_nil]
    rw [if_neg (lt_irrefl _)]
  have hloop : M2.optimizeLoop [] [⟨0, 0⟩] [⟨3, 0⟩] =
      Except.ok [⟨0, 0⟩, ⟨3, 0⟩] := by
    rw [M2.optimizeLoop]
    have hcur : ((([⟨0, 0⟩] : List Waypoint).getLast?).getD ⟨0, 0⟩) =
        (⟨0, 0⟩ : Waypoint) := rfl
    rw [hcur, hsel, findSafeRoute_of_no_intersect [] ⟨0, 0⟩ ⟨3, 0⟩ (by simp)]
    rw [show ([⟨3, 0⟩] : List Waypoint).erase ⟨3, 0⟩ = [] from
      List.erase_cons_head _ _]
    show M2.optimizeLoop [] ([⟨0, 0⟩] ++ ([⟨0, 0⟩, ⟨3, 0⟩] : List Waypoint).tail) [] =
      Except.ok [⟨0, 0⟩, ⟨3, 0⟩]
    rw [M2.optimizeLoop]
    rfl
  unfold M2.optimizeRoute
  rw [hloop]
  dsimp only
  rw [if_pos (by simp)]
  have hcur2 : ((([⟨0, 0⟩, ⟨3, 0⟩] : List Waypoint).getLast?).getD ⟨0, 0⟩) =
      (⟨3, 0⟩ : Waypoint) := rfl
  have hhd2 : (([⟨0, 0⟩, ⟨3, 0⟩] : List Waypoint).headD ⟨0, 0⟩) =
      (⟨0, 0⟩ : Waypoint) := rfl
  rw [hcur2, hhd2, findSafeRoute_of_no_intersect [] ⟨3, 0⟩ ⟨0, 0⟩ (by simp)]
  rfl

/-- C8: whenever the Policy B detour constructor is invoked under the
predicate that triggers the call (some obstacle intersects the straight
leg), the input-order scan rediscovers an intersecting obstacle, so the
`"No obstacle found"` error branch is unreachable; consequently
`findSafeRoute` always returns a result. -/
theorem c8_invariant_violation_unreachable :
    (∀ (obs : List Obstacle) (a b : Waypoint),
      (∃ o ∈ obs, M2.intersectsWithLineSegment o (M2.mkSegment a b)) →
      ∃ pts, M2.findAlternativeSafePath obs a b = Except.ok pts) ∧
    (∀ (obs : List Obstacle) (a b : Waypoint),
      ∃ l, M2.findSafeRoute obs a b = Except.ok l) := by
  constructor
  · intro obs a b hex
    unfold M2.findAlternativeSafePath
    obtain ⟨o', ho'⟩ := findIntersecting_of_exists a b obs hex
    rw [ho']
    exact ⟨_, rfl⟩
  · intro obs a b
    obtain ⟨l, hl, _⟩ := M2.findSafeRoute_ok obs a b
    exact ⟨l, hl⟩

/-- Distance from the centre `(1,0)` to the segment `(0,0)–(3,0)` under the
`model2.js` computation: the centre lies on the segment, so the distance is
zero (whatever the obstacle's radius field holds). -/
theorem m2_eval_dist_fwd (r : ℝ) :
    M2.distanceToLineSegment ⟨1, 0, r⟩ (M2.mkSegment ⟨0, 0⟩ ⟨3, 0⟩) = 0 := by
  unfold M2.distanceToLineSegment M2.mkSegment
  dsimp only
  have hL : Real.sqrt (((3 : ℝ) - 0) ^ 2 + ((0 : ℝ) - 0) ^ 2) = 3 :=
    sqrt_eq_of_sq (by norm_num) (by norm_num)
  rw [hL, if_neg (by norm_num)]
  have ht : ((1 : ℝ) - 0) * (3 - 0) + ((0 : ℝ) - 0) * (0 - 0) = 3 := by norm_num
  rw [ht]
  have hmin : min (1 : ℝ) (3 / 3 ^ 2) = 3 / 3 ^ 2 := min_eq_right (by norm_num)
  have hmax : max (0 : ℝ) (3 / 3 ^ 2) = 3 / 3 ^ 2 := max_eq_right (by norm_num)
  rw [hmin, hmax]
  have harg : ((1 : ℝ) - (0 + 3 / 3 ^ 2 * (3 - 0))) ^ 2 +
      ((0 : ℝ) - (0 + 3 / 3 ^ 2 * (0 - 0))) ^ 2 = 0 := by norm_num
  rw [harg, Real.sqrt_zero]

/-- Distance from the centre `(1,0)` to the reversed segment `(3,0)–(0,0)`
under the `model2.js` computation: again zero. -/
theorem m2_eval_dist_rev (r : ℝ) :
    M2.distanceToLineSegment ⟨1, 0, r⟩ (M2.mkSegment ⟨3, 0⟩ ⟨0, 0⟩) = 0 := by
  unfold M2.distanceToLineSegment M2.mkSegment
  dsimp only
  have hL : Real.sqrt (((0 : ℝ) - 3) ^ 2 + ((0 : ℝ) - 0) ^ 2) = 3 :=
    sqrt_eq_of_sq (by norm_num) (by norm_num)
  rw [hL, if_neg (by norm_num)]
  have ht : ((1 : ℝ) - 3) * (0 - 3) + ((0 : ℝ) - 0) * (0 - 0) = 6 := by norm_num
  rw [ht]
  have hmin : min (1 : ℝ) (6 / 3 ^ 2) = 6 / 3 ^ 2 := min_eq_right (by norm_num)
  have hmax : max (0 : ℝ) (6 / 3 ^ 2) = 6 / 3 ^ 2 := max_eq_right (by norm_num)
  rw [hmin, hmax]
  have harg : ((1 : ℝ) - (3 + 6 / 3 ^ 2 * (0 - 3))) ^ 2 +
      ((0 : ℝ) - (0 + 6 / 3 ^ 2 * (0 - 0))) ^ 2 = 0 := by norm_num
  rw [harg, Real.sqrt_zero]

/-- Witness for C8 at a concrete intersecting configuration: the obstacle
`(1,0,1)` sits on the leg `(0,0)–(3,0)`, the trigger predicate holds, and
the detour constructor succeeds (no "No obstacle found" error). -/
theorem c8_invariant_violation_unreachable_witness :
    (∃ o ∈ ([⟨1, 0, 1⟩] : List Obstacle),
      M2.intersectsWithLineSegment o (M2.mkSegment ⟨0, 0⟩ ⟨3, 0⟩)) ∧
    (∃ pts, M2.findAlternativeSafePath [⟨1, 0, 1⟩] ⟨0, 0⟩ ⟨3, 0⟩ = Except.ok pts) := by
  have hint : M2.intersectsWithLineSegment ⟨1, 0, 1⟩ (M2.mkSegment ⟨0, 0⟩ ⟨3, 0⟩) := by
    unfold M2.intersectsWithLineSegment
    rw [m2_eval_dist_fwd]
    norm_num
  have hex : ∃ o ∈ ([⟨1, 0, 1⟩] : List Obstacle),
      M2.intersectsWithLineSegment o (M2.mkSegment ⟨0, 0⟩ ⟨3, 0⟩) :=
    ⟨⟨1, 0, 1⟩, List.mem_cons_self _ _, hint⟩
  exact ⟨hex, c8_invariant_violation_unreachable.1 [⟨1, 0, 1⟩] ⟨0, 0⟩ ⟨3, 0⟩ hex⟩

/-- C2: the Policy B resolver returns the straight leg `[from, to]` when no
obstacle intersects it; otherwise, with `o` the first intersecting obstacle
in input order, it returns exactly the four-point detour built from the
bearing `θ = atan2(to.y - from.y, to.x - from.x)` and the offset radius
`o.radius + 1` (the code's margin is the constant 1), with the first offset
at `θ + 45°` from `from` and the second at `θ - 45°` back from `to`. -/
theorem c2_policyB_detour (obs : List Obstacle) (a b : Waypoint) :
    ((∀ o ∈ obs, ¬ M2.intersectsWithLineSegment o (M2.mkSegment a b)) →
      M2.findSafeRoute obs a b = Except.ok [a, b]) ∧
    (∀ (pre : List Obstacle) (o : Obstacle) (suf : List Obstacle),
      obs = pre ++ o :: suf →
      (∀ o' ∈ pre, ¬ M2.intersectsWithLineSegment o' (M2.mkSegment a b)) →
      M2.intersectsWithLineSegment o (M2.mkSegment a b) →
      M2.findSafeRoute obs a b = Except.ok [a,
        ⟨a.x + (o.radius + 1) * Real.cos (atan2 (b.y - a.y) (b.x - a.x) + Real.pi / 4),
         a.y + (o.radius + 1) * Real.sin (atan2 (b.y - a.y) (b.x - a.x) + Real.pi / 4)⟩,
        ⟨b.x - (o.radius + 1) * Real.cos (atan2 (b.y - a.y) (b.x - a.x) - Real.pi / 4),
         b.y - (o.radius + 1) * Real.sin (atan2 (b.y - a.y) (b.x - a.x) - Real.pi / 4)⟩,
        b]) := by
  constructor
  · intro h
    unfold M2.findSafeRoute
    rw [if_neg]
    rintro ⟨o, hmem, hint⟩
    exact h o hmem hint
  · intro pre o suf hobs hpre hint
    unfold M2.findSafeRoute
    rw [if_pos ⟨o, by rw [hobs]; exact List.mem_append_right _ (List.mem_cons_self _ _), hint⟩]
    unfold M2.findAlternativeSafePath
    rw [hobs, findIntersecting_first a b pre o suf hpre hint]

/-- Witness for C2 at a concrete input: the obstacle `(1,0,1)` intersects
the leg `(0,0)–(3,0)` and is first in input order, so the resolver returns
the four-point detour with offset radius `1 + 1`. -/
theorem c2_policyB_detour_witness :
    M2.findSafeRoute [⟨1, 0, 1⟩] ⟨0, 0⟩ ⟨3, 0⟩ = Except.ok [⟨0, 0⟩,
      ⟨0 + ((1 : ℝ) + 1) * Real.cos (atan2 ((0 : ℝ) - 0) ((3 : ℝ) - 0) + Real.pi / 4),
       0 + ((1 : ℝ) + 1) * Real.sin (atan2 ((0 : ℝ) - 0) ((3 : ℝ) - 0) + Real.pi / 4)⟩,
      ⟨3 - ((1 : ℝ) + 1) * Real.cos (atan2 ((0 : ℝ) - 0) ((3 : ℝ) - 0) - Real.pi / 4),
       0 - ((1 : ℝ) + 1) * Real.sin (atan2 ((0 : ℝ) - 0) ((3 : ℝ) - 0) - Real.pi / 4)⟩,
      ⟨3, 0⟩] := by
  have hint : M2.intersectsWithLineSegment ⟨1, 0, 1⟩ (M2.mkSegment ⟨0, 0⟩ ⟨3, 0⟩) := by
    unfold M2.intersectsWithLineSegment
    rw [m2_eval_dist_fwd]
    norm_num
  exact (c2_policyB_detour [⟨1, 0, 1⟩] ⟨0, 0⟩ ⟨3, 0⟩).2 [] ⟨1, 0, 1⟩ [] rfl
    (by simp) hint

/-- Witness for C6 at a boundary configuration: the segment from `(-1,0)`
to `(1,0)` has closest point `(0,0)` to the centre `(0,2)`, at distance
exactly the radius `2`, and is classified as intersecting. -/
theorem c6_intersection_boundary_witness :
    (closestPointOnSegment ⟨0, 2⟩ ⟨⟨-1, 0⟩, ⟨1, 0⟩⟩).distanceTo ⟨0, 2⟩ = (2 : ℝ) ∧
    Obstacle.intersectsWithLineSegment ⟨0, 2, 2⟩ ⟨⟨-1, 0⟩, ⟨1, 0⟩⟩ := by
  have hclosest : closestPointOnSegment ⟨0, 2⟩ ⟨⟨-1, 0⟩, ⟨1, 0⟩⟩ = (⟨0, 0⟩ : Waypoint) := by
    unfold closestPointOnSegment
    dsimp only
    rw [if_neg (by norm_num)]
    norm_num
  have hdist : (closestPointOnSegment ⟨0, 2⟩ ⟨⟨-1, 0⟩, ⟨1, 0⟩⟩).distanceTo ⟨0, 2⟩ = (2 : ℝ) := by
    rw [hclosest]
    unfold Waypoint.distanceTo
    exact sqrt_eq_of_sq (by norm_num) (by norm_num)
  exact ⟨hdist, (c6_intersection_boundary ⟨0, 2, 2⟩ ⟨⟨-1, 0⟩, ⟨1, 0⟩⟩).2 hdist⟩

theorem mem_of_getLast?_eq {l : List Waypoint} {a : Waypoint}
    (h : l.getLast? = some a) : a ∈ l := by
  obtain ⟨hne, rfl⟩ := List.mem_getLast?_eq_getLast (show a ∈ l.getLast? by rw [h]; rfl)
  exact List.getLast_mem hne

theorem ne_nil_of_getLast?_eq {l : List Waypoint} {a : Waypoint}
    (h : l.getLast? = some a) : l ≠ [] := by
  intro hnil
  rw [hnil] at h
  simp at h

theorem ceil_toNat_lt (s d : ℝ) (hs : 0 < s) (h : s < d) :
    (⌈(d - s) / s⌉).toNat < (⌈d / s⌉).toNat := by
  have hdiv : (d - s) / s = d / s - 1 := by field_simp
  rw [hdiv, Int.ceil_sub_one]
  have hceil : (1 : ℤ) < ⌈d / s⌉ :=
    Int.lt_ceil.mpr (by exact_mod_cast (one_lt_div hs).mpr h)
  omega

/-- Full characterisation of the Policy A subdivision loop: the produced
chain steps by `findIntermediateWaypoint` exactly while the remaining
distance exceeds the step length, appends the target once within reach,
and always ends at the target. -/
theorem M1.safeLoop_spec (s : ℝ) (hs : 0 < s) (n : Waypoint) :
    ∀ c : Waypoint,
      List.Chain' (fun p q =>
        (s < p.distanceTo n ∧ q = M1.findIntermediateWaypoint s p n) ∨
        (p.distanceTo n ≤ s ∧ q = n)) (c :: M1.safeLoop s hs c n) ∧
      (M1.safeLoop s hs c n).getLast? = some n := by
  suffices H : ∀ (k : ℕ) (c : Waypoint), (⌈c.distanceTo n / s⌉).toNat = k →
      List.Chain' (fun p q =>
        (s < p.distanceTo n ∧ q = M1.findIntermediateWaypoint s p n) ∨
        (p.distanceTo n ≤ s ∧ q = n)) (c :: M1.safeLoop s hs c n) ∧
      (M1.safeLoop s hs c n).getLast? = some n by
    exact fun c => H _ c rfl
  intro k
  induction k using Nat.strong_induction_on with
  | _ k ih =>
    intro c hk
    rw [M1.safeLoop]
    by_cases hgt : c.distanceTo n > s
    · rw [dif_pos hgt]
      have hdec := M1.distanceTo_findIntermediateWaypoint s hs c n hgt
      have hlt : (⌈(M1.findIntermediateWaypoint s c n).distanceTo n / s⌉).toNat < k := by
        rw [hdec, ← hk]
        exact ceil_toNat_lt s (c.distanceTo n) hs hgt
      obtain ⟨hchain, hlast⟩ := ih _ hlt (M1.findIntermediateWaypoint s c n) rfl
      refine ⟨List.chain'_cons.mpr ⟨Or.inl ⟨hgt, rfl⟩, hchain⟩, ?_⟩
      rw [show M1.findIntermediateWaypoint s c n ::
          M1.safeLoop s hs (M1.findIntermediateWaypoint s c n) n =
          [M1.findIntermediateWaypoint s c n] ++
          M1.safeLoop s hs (M1.findIntermediateWaypoint s c n) n from rfl,
        List.getLast?_append_of_ne_nil _ (ne_nil_of_getLast?_eq hlast)]
      exact hlast
    · rw [dif_neg hgt]
      exact ⟨List.chain'_cons.mpr ⟨Or.inr ⟨not_lt.mp hgt, rfl⟩,
        List.chain'_singleton _⟩, rfl⟩

theorem M1.safeLoop_getLast (s : ℝ) (hs : 0 < s) (c n : Waypoint) :
    (M1.safeLoop s hs c n).getLast? = some n :=
  (M1.safeLoop_spec s hs n c).2

theorem M1.safeLoop_ne_nil (s : ℝ) (hs : 0 < s) (c n : Waypoint) :
    M1.safeLoop s hs c n ≠ [] :=
  ne_nil_of_getLast?_eq (M1.safeLoop_getLast s hs c n)

theorem M1.findSafeRoute_pos (s : ℝ) (hs : 0 < s) (a b : Waypoint) :
    M1.findSafeRoute s ⟨a, b⟩ = some (a :: M1.safeLoop s hs a b) :=
  dif_pos hs

theorem selectClosest_single (c x : Waypoint) : selectClosest c [x] = x := by
  unfold selectClosest selectStep
  simp only [List.headD_cons, List.foldl_cons, List.foldl_nil]
  rw [if_neg (lt_irrefl _)]

/-- The selection sequence is a permutation of the unvisited set: every
unvisited waypoint is selected exactly once. -/
theorem selectionOrder_perm :
    ∀ (u : List Waypoint) (c : Waypoint), List.Perm (selectionOrder c u) u := by
  suffices H : ∀ (n : ℕ) (u : List Waypoint) (c : Waypoint), u.length = n →
      List.Perm (selectionOrder c u) u by
    exact fun u c => H u.length u c rfl
  intro n
  induction n using Nat.strong_induction_on with
  | _ n ih =>
    intro u c hlen
    cases u with
    | nil => rw [selectionOrder]
    | cons hd tl =>
      rw [selectionOrder]
      have hmem := selectClosest_mem c hd tl
      have hperm := ih (((hd :: tl).erase (selectClosest c (hd :: tl))).length)
        (by rw [List.length_erase_of_mem hmem, ← hlen]
            simp only [List.length_cons]
            omega)
        ((hd :: tl).erase (selectClosest c (hd :: tl)))
        (selectClosest c (hd :: tl)) rfl
      exact (hperm.cons _).trans (List.perm_cons_erase hmem).symm

theorem legsFrom_mem (s : ℝ) (hs : 0 < s) :
    ∀ (sels : List Waypoint) (c x : Waypoint), x ∈ sels → x ∈ legsFrom s hs c sels := by
  intro sels
  induction sels with
  | nil => intro c x hx; simp at hx
  | cons sel rest ih =>
    intro c x hx
    rw [legsFrom]
    rcases List.mem_cons.mp hx with rfl | hx
    · exact List.mem_append_left _
        (mem_of_getLast?_eq (M1.safeLoop_getLast s hs c x))
    · exact List.mem_append_right _ (ih sel x hx)

/-- Full characterisation of the `model1.js` main loop: starting from a
non-empty route, it returns the route extended by the resolver outputs
along the selection sequence taken from the route's last point. -/
theorem M1.optimizeLoop_eq (s : ℝ) (hs : 0 < s) :
    ∀ (u route : List Waypoint),
      M1.optimizeLoop s route u =
        some (route ++ legsFrom s hs ((route.getLast?).getD ⟨0, 0⟩)
          (selectionOrder ((route.getLast?).getD ⟨0, 0⟩) u)) := by
  suffices H : ∀ (n : ℕ) (u route : List Waypoint), u.length = n →
      M1.optimizeLoop s route u =
        some (route ++ legsFrom s hs ((route.getLast?).getD ⟨0, 0⟩)
          (selectionOrder ((route.getLast?).getD ⟨0, 0⟩) u)) by
    exact fun u route => H u.length u route rfl
  intro n
  induction n using Nat.strong_induction_on with
  | _ n ih =>
    intro u route hlen
    cases u with
    | nil =>
      rw [M1.optimizeLoop, selectionOrder]
      rw [show legsFrom s hs ((route.getLast?).getD ⟨0, 0⟩) [] = [] from rfl]
      rw [List.append_nil]
    | cons hd tl =>
      rw [M1.optimizeLoop]
      rw [M1.findSafeRoute_pos s hs ((route.getLast?).getD ⟨0, 0⟩)
        (selectClosest ((route.getLast?).getD ⟨0, 0⟩) (hd :: tl))]
      have hmem := selectClosest_mem ((route.getLast?).getD ⟨0, 0⟩) hd tl
      have hrec := ih (((hd :: tl).erase
          (selectClosest ((route.getLast?).getD ⟨0, 0⟩) (hd :: tl))).length)
        (by rw [List.length_erase_of_mem hmem, ← hlen]
            simp only [List.length_cons]
            omega)
        ((hd :: tl).erase (selectClosest ((route.getLast?).getD ⟨0, 0⟩) (hd :: tl)))
        (route ++ (((route.getLast?).getD ⟨0, 0⟩) ::
          M1.safeLoop s hs ((route.getLast?).getD ⟨0, 0⟩)
            (selectClosest ((route.getLast?).getD ⟨0, 0⟩) (hd :: tl))).tail) rfl
      rw [List.tail_cons] at hrec
      have hlast : (((route ++ M1.safeLoop s hs ((route.getLast?).getD ⟨0, 0⟩)
          (selectClosest ((route.getLast?).getD ⟨0, 0⟩) (hd :: tl))).getLast?).getD ⟨0, 0⟩) =
          selectClosest ((route.getLast?).getD ⟨0, 0⟩) (hd :: tl) := by
        rw [List.getLast?_append_of_ne_nil _ (M1.safeLoop_ne_nil s hs _ _),
          M1.safeLoop_getLast s hs]
        rfl
      rw [hlast] at hrec
      dsimp only
      rw [List.tail_cons, hrec, selectionOrder]
      rw [show legsFrom s hs ((route.getLast?).getD ⟨0, 0⟩)
          (selectClosest ((route.getLast?).getD ⟨0, 0⟩) (hd :: tl) ::
            selectionOrder (selectClosest ((route.getLast?).getD ⟨0, 0⟩) (hd :: tl))
              ((hd :: tl).erase (selectClosest ((route.getLast?).getD ⟨0, 0⟩) (hd :: tl)))) =
          M1.safeLoop s hs ((route.getLast?).getD ⟨0, 0⟩)
            (selectClosest ((route.getLast?).getD ⟨0, 0⟩) (hd :: tl)) ++
          legsFrom s hs (selectClosest ((route.getLast?).getD ⟨0, 0⟩) (hd :: tl))
            (selectionOrder (selectClosest ((route.getLast?).getD ⟨0, 0⟩) (hd :: tl))
              ((hd :: tl).erase (selectClosest ((route.getLast?).getD ⟨0, 0⟩) (hd :: tl))))
          from rfl]
      rw [List.append_assoc]

/-- C5: for a positive step length, the Policy A resolver returns a
sequence starting at `from` and ending at `to`; each consecutive pair is
either an insertion of the point exactly `s` further along the bearing
`atan2` of the delta towards `to` (taken while the remaining distance
exceeds `s`), or the final append of `to` once the remainder is within
`s`. -/
theorem c5_policyA_subdivision (s : ℝ) (hs : 0 < s) (a b : Waypoint) :
    ∃ l, M1.findSafeRoute s ⟨a, b⟩ = some l ∧
      l.head? = some a ∧ l.getLast? = some b ∧
      List.Chain' (fun p q =>
        (s < p.distanceTo b ∧
          q = ⟨p.x + s * Real.cos (atan2 (b.y - p.y) (b.x - p.x)),
               p.y + s * Real.sin (atan2 (b.y - p.y) (b.x - p.x))⟩) ∨
        (p.distanceTo b ≤ s ∧ q = b)) l := by
  obtain ⟨hchain, hlast⟩ := M1.safeLoop_spec s hs b a
  refine ⟨a :: M1.safeLoop s hs a b, M1.findSafeRoute_pos s hs a b, rfl, ?_, ?_⟩
  · rw [show a :: M1.safeLoop s hs a b = [a] ++ M1.safeLoop s hs a b from rfl,
      List.getLast?_append_of_ne_nil _ (M1.safeLoop_ne_nil s hs a b)]
    exact hlast
  · exact hchain

/-- Witness for C5 at a concrete input: leg `(0,0)–(3,0)` with step length
`2` (one intermediate point is inserted). -/
theorem c5_policyA_subdivision_witness :
    (0 : ℝ) < 2 ∧
    (∃ l, M1.findSafeRoute 2 ⟨⟨0, 0⟩, ⟨3, 0⟩⟩ = some l ∧
      l.head? = some ⟨0, 0⟩ ∧ l.getLast? = some ⟨3, 0⟩ ∧
      List.Chain' (fun p q =>
        ((2 : ℝ) < p.distanceTo ⟨3, 0⟩ ∧
          q = ⟨p.x + 2 * Real.cos (atan2 ((⟨3, 0⟩ : Waypoint).y - p.y)
                ((⟨3, 0⟩ : Waypoint).x - p.x)),
               p.y + 2 * Real.sin (atan2 ((⟨3, 0⟩ : Waypoint).y - p.y)
                ((⟨3, 0⟩ : Waypoint).x - p.x))⟩) ∨
        (p.distanceTo ⟨3, 0⟩ ≤ 2 ∧ q = ⟨3, 0⟩)) l) :=
  ⟨by norm_num, c5_policyA_subdivision 2 (by norm_num) ⟨0, 0⟩ ⟨3, 0⟩⟩

/-- C4: for a positive step length, the `model1.js` tour builder succeeds
on any non-empty waypoint sequence; every input waypoint appears in the
output Route, and the selection sequence is a permutation of the non-origin
waypoints — each is selected exactly once, in exactly `|W| - 1` selection
steps. -/
theorem c4_tour_structure (s : ℝ) (w : Waypoint) (rest : List Waypoint) (hs : 0 < s) :
    ∃ l, M1.optimizeRoute s w rest = some l ∧
      (∀ p ∈ w :: rest, p ∈ l) ∧
      List.Perm (selectionOrder w rest) rest ∧
      (selectionOrder w rest).length = rest.length := by
  have hperm := selectionOrder_perm rest w
  have hloop : M1.optimizeLoop s [w] rest =
      some ([w] ++ legsFrom s hs w (selectionOrder w rest)) :=
    M1.optimizeLoop_eq s hs rest [w]
  have hmemm : ∀ p ∈ w :: rest, p ∈ [w] ++ legsFrom s hs w (selectionOrder w rest) := by
    intro p hp
    rcases List.mem_cons.mp hp with rfl | hp
    · exact List.mem_append_left _ (List.mem_singleton.mpr rfl)
    · exact List.mem_append_right _ (legsFrom_mem s hs _ w p (hperm.mem_iff.mpr hp))
  unfold M1.optimizeRoute
  rw [hloop]
  dsimp only
  by_cases hgt : 1 < ([w] ++ legsFrom s hs w (selectionOrder w rest)).length
  · rw [if_pos hgt]
    rw [M1.findSafeRoute_pos s hs
      ((([w] ++ legsFrom s hs w (selectionOrder w rest)).getLast?).getD ⟨0, 0⟩)
      (([w] ++ legsFrom s hs w (selectionOrder w rest)).headD ⟨0, 0⟩)]
    refine ⟨_, rfl, ?_, hperm, hperm.length_eq⟩
    intro p hp
    exact List.mem_append_left _ (hmemm p hp)
  · rw [if_neg hgt]
    exact ⟨_, rfl, hmemm, hperm, hperm.length_eq⟩

/-- Witness for C4 at a concrete input: waypoints `[(0,0), (3,0)]`, step
length `10`. -/
theorem c4_tour_structure_witness :
    (0 : ℝ) < 10 ∧
    (∃ l, M1.optimizeRoute 10 ⟨0, 0⟩ [⟨3, 0⟩] = some l ∧
      (∀ p ∈ ([⟨0, 0⟩, ⟨3, 0⟩] : List Waypoint), p ∈ l) ∧
      List.Perm (selectionOrder ⟨0, 0⟩ [⟨3, 0⟩]) [⟨3, 0⟩] ∧
      (selectionOrder ⟨0, 0⟩ [⟨3, 0⟩]).length = ([⟨3, 0⟩] : List Waypoint).length) :=
  ⟨by norm_num, c4_tour_structure 10 ⟨0, 0⟩ [⟨3, 0⟩] (by norm_num)⟩

/-- C10: for at least two input waypoints, both tour builders always
resolve and append a closing leg back to the first input waypoint; the
returned Route ends at the origin, and no configuration flag disables
this (model1 additionally needs a positive step length for its resolver
loop to terminate). -/
theorem c10_loop_closing (w : Waypoint) (rest : List Waypoint) (h : rest ≠ []) :
    (∀ obs : List Obstacle, ∃ l, M2.optimizeRoute obs w rest = Except.ok l ∧
      l.getLast? = some w ∧ 2 ≤ l.length) ∧
    (∀ s : ℝ, 0 < s → ∃ l, M1.optimizeRoute s w rest = some l ∧
      l.getLast? = some w ∧ 2 ≤ l.length) := by
  constructor
  · exact fun obs => M2.closes_loop obs w rest h
  · intro s hs
    have hperm := selectionOrder_perm rest w
    have hsone : selectionOrder w rest ≠ [] := by
      intro hnil
      rw [hnil] at hperm
      exact h (hperm.symm.eq_nil)
    have hlegs_ne : legsFrom s hs w (selectionOrder w rest) ≠ [] := by
      cases hsel : selectionOrder w rest with
      | nil => exact absurd hsel hsone
      | cons x xs =>
        rw [legsFrom]
        intro hnil
        rcases List.append_eq_nil.mp hnil with ⟨hb, _⟩
        exact M1.safeLoop_ne_nil s hs w x hb
    have hloop : M1.optimizeLoop s [w] rest =
        some ([w] ++ legsFrom s hs w (selectionOrder w rest)) :=
      M1.optimizeLoop_eq s hs rest [w]
    have hmlen : 2 ≤ ([w] ++ legsFrom s hs w (selectionOrder w rest)).length := by
      rw [List.length_append]
      have := List.length_pos.mpr hlegs_ne
      simp only [List.length_singleton]
      omega
    unfold M1.optimizeRoute
    rw [hloop]
    dsimp only
    rw [if_pos (by omega)]
    rw [M1.findSafeRoute_pos s hs
      ((([w] ++ legsFrom s hs w (selectionOrder w rest)).getLast?).getD ⟨0, 0⟩)
      (([w] ++ legsFrom s hs w (selectionOrder w rest)).headD ⟨0, 0⟩)]
    have hheadw : ([w] ++ legsFrom s hs w (selectionOrder w rest)).headD ⟨0, 0⟩ = w := rfl
    refine ⟨_, rfl, ?_, ?_⟩
    · rw [List.tail_cons, List.getLast?_append_of_ne_nil _ (M1.safeLoop_ne_nil s hs _ _),
        M1.safeLoop_getLast s hs, hheadw]
    · rw [List.length_append]
      omega

/-- Witness for C10 at a concrete input (two waypoints; model2 with no
obstacles, model1 with step length `1`). -/
theorem c10_loop_closing_witness :
    (([⟨3, 0⟩] : List Waypoint) ≠ []) ∧
    ((∀ obs : List Obstacle, ∃ l, M2.optimizeRoute obs ⟨0, 0⟩ [⟨3, 0⟩] = Except.ok l ∧
      l.getLast? = some ⟨0, 0⟩ ∧ 2 ≤ l.length) ∧
    (∀ s : ℝ, 0 < s → ∃ l, M1.optimizeRoute s ⟨0, 0⟩ [⟨3, 0⟩] = some l ∧
      l.getLast? = some ⟨0, 0⟩ ∧ 2 ≤ l.length)) :=
  ⟨by simp, c10_loop_closing ⟨0, 0⟩ [⟨3, 0⟩] (by simp)⟩

/-- Distance from the centre `(1,0)` to the segment `(0,0)–(3,0)` under the
`model1.js` computation: the centre lies on the segment, so the distance is
zero. -/
theorem m1_eval_dist (r : ℝ) :
    Obstacle.distanceToLineSegment ⟨1, 0, r⟩ ⟨⟨0, 0⟩, ⟨3, 0⟩⟩ = 0 := by
  unfold Obstacle.distanceToLineSegment
  dsimp only
  rw [if_neg (by norm_num)]
  have ht : (((1 : ℝ) - 0) * (3 - 0) + ((0 : ℝ) - 0) * (0 - 0)) /
      (((3 : ℝ) - 0) ^ 2 + ((0 : ℝ) - 0) ^ 2) = 1 / 3 := by norm_num
  rw [ht]
  have hmin : min (1 : ℝ) (1 / 3) = 1 / 3 := min_eq_right (by norm_num)
  have hmax : max (0 : ℝ) (1 / 3) = 1 / 3 := max_eq_right (by norm_num)
  rw [hmin, hmax]
  have harg : ((1 : ℝ) - (0 + 1 / 3 * (3 - 0))) ^ 2 +
      ((0 : ℝ) - (0 + 1 / 3 * (0 - 0))) ^ 2 = 0 := by norm_num
  rw [harg, Real.sqrt_zero]

/-- C1 (code evidence): the `model1.js` tour builder never consults the
obstacle set: with waypoints `[(0,0), (3,0)]`, the obstacle `(1,0,1)`
sitting on the leg, and step length `10`, it returns the route
`[(0,0), (3,0), (0,0)]` whose first leg passes through the obstacle; the
leg fails the (never invoked) `isSafeRoute` check, and no
UnresolvedHazard flagging mechanism exists anywhere in the code. -/
theorem c1_unsafe_leg_in_route :
    M1.optimizeRoute 10 ⟨0, 0⟩ [⟨3, 0⟩] = some [⟨0, 0⟩, ⟨3, 0⟩, ⟨0, 0⟩] ∧
    ¬ M1.isSafeRoute [⟨1, 0, 1⟩] ⟨⟨0, 0⟩, ⟨3, 0⟩⟩ := by
  have h10 : (0 : ℝ) < 10 := by norm_num
  have hd30 : (⟨0, 0⟩ : Waypoint).distanceTo ⟨3, 0⟩ = 3 := by
    unfold Waypoint.distanceTo
    exact sqrt_eq_of_sq (by norm_num) (by norm_num)
  have hd03 : (⟨3, 0⟩ : Waypoint).distanceTo ⟨0, 0⟩ = 3 := by
    unfold Waypoint.distanceTo
    exact sqrt_eq_of_sq (by norm_num) (by norm_num)
  have hsl1 : M1.safeLoop 10 h10 ⟨0, 0⟩ ⟨3, 0⟩ = [⟨3, 0⟩] := by
    rw [M1.safeLoop, dif_neg (by rw [hd30]; norm_num)]
  have hsl2 : M1.safeLoop 10 h10 ⟨3, 0⟩ ⟨0, 0⟩ = [⟨0, 0⟩] := by
    rw [M1.safeLoop, dif_neg (by rw [hd03]; norm_num)]
  have hso : selectionOrder ⟨0, 0⟩ [⟨3, 0⟩] = [⟨3, 0⟩] := by
    rw [selectionOrder, selectClosest_single, List.erase_cons_head, selectionOrder]
  have hlegs : legsFrom 10 h10 ⟨0, 0⟩ [⟨3, 0⟩] = [⟨3, 0⟩] := by
    rw [legsFrom, hsl1, legsFrom, List.append_nil]
  have hloop : M1.optimizeLoop 10 [⟨0, 0⟩] [⟨3, 0⟩] = some [⟨0, 0⟩, ⟨3, 0⟩] := by
    rw [M1.optimizeLoop_eq 10 h10]
    show some (([⟨0, 0⟩] : List Waypoint) ++
      legsFrom 10 h10 ⟨0, 0⟩ (selectionOrder ⟨0, 0⟩ [⟨3, 0⟩])) = _
    rw [hso, hlegs]
    rfl
  constructor
  · unfold M1.optimizeRoute
    rw [hloop]
    dsimp only
    rw [if_pos (by simp)]
    rw [show ((([⟨0, 0⟩, ⟨3, 0⟩] : List Waypoint).getLast?).getD ⟨0, 0⟩) =
        (⟨3, 0⟩ : Waypoint) from rfl,
      show (([⟨0, 0⟩, ⟨3, 0⟩] : List Waypoint).headD ⟨0, 0⟩) =
        (⟨0, 0⟩ : Waypoint) from rfl]
    rw [M1.findSafeRoute_pos 10 h10 ⟨3, 0⟩ ⟨0, 0⟩, hsl2]
    rfl
  · intro hsafe
    apply hsafe ⟨1, 0, 1⟩ (List.mem_cons_self _ _)
    unfold Obstacle.intersectsWithLineSegment
    rw [m1_eval_dist]
    norm_num

end DronePath
